import Mathlib

/-!
Shallow embedding of the LilySurfaceScrapper Cycles material pipeline:
the image cache, the node layout heuristic, the node-group asset loader
and the color-space heuristic of cycles_utils.py, and the material builder
of CyclesMaterialData.py.  Host (Blender) API calls are modelled as events
on explicit state; Python-level semantics (dict lookup, iteration order,
exceptions) is modelled faithfully.
-/

namespace LilyScrap

/-! ### Python string primitives, modelled on character lists -/

/-- Python s.split(sep)[0] for a one-character separator: the characters of
s before its first underscore (the whole string when there is none). -/
def pySplitHead (s : String) : String :=
  String.mk (s.data.takeWhile (fun c => c != '_'))

/-- Python s.endswith(t). -/
def pyEndsWith (s t : String) : Bool :=
  t.data.isSuffixOf s.data

/-- Python s.lower() restricted to ASCII, which is all the call sites use. -/
def pyToLower (s : String) : String :=
  String.mk (s.data.map Char.toLower)

/-- Python s[:-5], used to strip the "_back" suffix. -/
def pyDropLast5 (s : String) : String :=
  String.mk (s.data.take (s.data.length - 5))

/-! ### Color-space heuristic (cycles_utils.guessColorSpaceFromExtension) -/

/-- The dictionary returned by guessColorSpaceFromExtension; as a structure,
both the "name" and "old_name" keys are always present. -/
structure ColorSpace where
  name : String
  old_name : String
deriving DecidableEq, Repr

/-- Embedding of cycles_utils.guessColorSpaceFromExtension. -/
def guessColorSpaceFromExtension (img : String) : ColorSpace :=
  let img := pyToLower img
  if pyEndsWith img ".jpg" || pyEndsWith img ".jpeg" || pyEndsWith img ".png" then
    { name := "sRGB", old_name := "COLOR" }
  else
    { name := "Linear", old_name := "NONE" }

/-! ### Image cache (cycles_utils.getCyclesImage) -/

/-- A Blender image datablock: an identity plus its filepath attribute. -/
structure Image where
  uid : Nat
  filepath : String
deriving DecidableEq, Repr

/-- The state of bpy.data.images, with a counter giving fresh datablock
identities to newly loaded images. -/
structure ImageData where
  images : List Image
  nextUid : Nat
deriving DecidableEq, Repr

/-- Embedding of cycles_utils.getCyclesImage.  The abspath argument abstracts
os.path.abspath.  The loop over bpy.data.images returns the first image whose
absolute filepath matches; otherwise bpy.data.images.load appends a fresh
datablock whose filepath attribute is the given path and returns it. -/
def getCyclesImage (abspath : String → String) (st : ImageData) (imgpath : String) :
    Image × ImageData :=
  match st.images.find? (fun img => abspath img.filepath == abspath imgpath) with
  | some img => (img, st)
  | none =>
      let img : Image := { uid := st.nextUid, filepath := imgpath }
      (img, { images := st.images ++ [img], nextUid := st.nextUid + 1 })

/-! ### Theorems for C6 and C1 -/

/-- C6: guessColorSpaceFromExtension infers the color space from the extension
alone, case-insensitively: it returns name sRGB / old_name COLOR exactly when
the lowercased filename ends with .jpg, .jpeg or .png, and name Linear /
old_name NONE for every other string; both keys are always present (the result
type carries both fields). -/
theorem c6_color_space_heuristic (s : String) :
    (guessColorSpaceFromExtension s = { name := "sRGB", old_name := "COLOR" } ↔
      (pyEndsWith (pyToLower s) ".jpg" || pyEndsWith (pyToLower s) ".jpeg" ||
        pyEndsWith (pyToLower s) ".png") = true) ∧
    ((pyEndsWith (pyToLower s) ".jpg" || pyEndsWith (pyToLower s) ".jpeg" ||
        pyEndsWith (pyToLower s) ".png") = false →
      guessColorSpaceFromExtension s = { name := "Linear", old_name := "NONE" }) := by
  unfold guessColorSpaceFromExtension
  by_cases h : (pyEndsWith (pyToLower s) ".jpg" || pyEndsWith (pyToLower s) ".jpeg" ||
      pyEndsWith (pyToLower s) ".png") = true <;>
    simp_all

/-- Witness for C6 at concrete inputs: an uppercase .JPeG file is sRGB and a
.exr file is Linear. -/
theorem c6_color_space_heuristic_witness :
    guessColorSpaceFromExtension "photo.JPeG" = { name := "sRGB", old_name := "COLOR" } ∧
    guessColorSpaceFromExtension "map.exr" = { name := "Linear", old_name := "NONE" } :=
  ⟨(c6_color_space_heuristic "photo.JPeG").1.mpr (by decide),
   (c6_color_space_heuristic "map.exr").2 (by decide)⟩

/-- C1: getCyclesImage deduplicates by absolute file path.  If some already
loaded image matches the absolute form of the path, an already loaded matching
image is returned and the collection is unchanged (no load); only when no
loaded image matches is a fresh datablock appended.  Consequently two
successive calls with the same path return the same image object and the
second call never changes the collection. -/
theorem c1_image_cache (abspath : String → String) (st : ImageData) (p : String) :
    ((∃ img ∈ st.images, abspath img.filepath = abspath p) →
      (getCyclesImage abspath st p).2 = st ∧
      (getCyclesImage abspath st p).1 ∈ st.images ∧
      abspath (getCyclesImage abspath st p).1.filepath = abspath p) ∧
    ((¬ ∃ img ∈ st.images, abspath img.filepath = abspath p) →
      (getCyclesImage abspath st p).2.images =
        st.images ++ [(getCyclesImage abspath st p).1]) ∧
    (getCyclesImage abspath (getCyclesImage abspath st p).2 p).1 =
      (getCyclesImage abspath st p).1 ∧
    (getCyclesImage abspath (getCyclesImage abspath st p).2 p).2 =
      (getCyclesImage abspath st p).2 := by
  rcases hfind : st.images.find? (fun img => abspath img.filepath == abspath p) with
    _ | img
  · have hnone := List.find?_eq_none.mp hfind
    refine ⟨?_, ?_, ?_, ?_⟩
    · rintro ⟨img, hmem, heq⟩
      exact absurd (of_decide_eq_true (by simpa using hnone img hmem)) (by simp [heq])
    · intro _
      simp [getCyclesImage, hfind]
    · simp only [getCyclesImage, hfind]
      rw [List.find?_append, hfind]
      simp
    · simp only [getCyclesImage, hfind]
      rw [List.find?_append, hfind]
      simp
  · have hmem : img ∈ st.images := List.mem_of_find?_eq_some hfind
    have hpred : (abspath img.filepath == abspath p) = true := by
      simpa using List.find?_some hfind
    refine ⟨?_, ?_, ?_, ?_⟩
    · intro _
      refine ⟨by simp [getCyclesImage, hfind], by simpa [getCyclesImage, hfind] using hmem,
        by simpa [getCyclesImage, hfind] using eq_of_beq hpred⟩
    · intro hno
      exact absurd ⟨img, hmem, eq_of_beq hpred⟩ hno
    · simp [getCyclesImage, hfind]
    · simp [getCyclesImage, hfind]

/-- Witness for C1 at a concrete input: loading "a.png" twice into an empty
collection yields the same image object and leaves the state fixed after the
first load. -/
theorem c1_image_cache_witness :
    (getCyclesImage id { images := [], nextUid := 0 } "a.png").2.images =
      [(getCyclesImage id { images := [], nextUid := 0 } "a.png").1] ∧
    (getCyclesImage id
        (getCyclesImage id { images := [], nextUid := 0 } "a.png").2 "a.png").1 =
      (getCyclesImage id { images := [], nextUid := 0 } "a.png").1 := by
  have h := c1_image_cache id { images := [], nextUid := 0 } "a.png"
  exact ⟨by simpa using h.2.1 (by simp), h.2.2.1⟩

/-! ### Material builder (CyclesMaterialData.createMaterial)

The builder is embedded as an event-trace machine: every host call that
creates a node, creates a link, loads an image or mutates a datablock is
recorded as an event.  Node identities are fresh naturals; node 0 is the
principled BSDF and node 1 the material output, both provided by
PrincipledBSDFWrapper before the loop starts. -/

/-- The node types created by createMaterial. -/
inductive NodeKind where
  | texImage
  | invert
  | displacement
  | normalMap
  | bsdfPrincipled
  | geometry
  | mixShader
deriving DecidableEq, Repr

/-- A node socket, addressed by index (inputs[0]) or by name (inputs["Roughness"]). -/
inductive Sock where
  | idx (n : Nat)
  | name (s : String)
deriving DecidableEq, Repr

/-- Host API calls performed by createMaterial, in program order. -/
inductive Ev where
  | newNode (node : Nat) (kind : NodeKind)
  | newLink (fromNode : Nat) (fromSock : Sock) (toNode : Nat) (toSock : Sock)
  | getImage (path : String)
  | setImageColorSpace (node : Nat) (cs : String)
  | setOldColorSpace (node : Nat) (cs : String)
  | setDefaultValue (node : Nat) (inputName : String) (value : Nat)
  | setBlendMethod (method : String)
  | align (root : Nat)
deriving DecidableEq, Repr

/-- The principled BSDF node made by PrincipledBSDFWrapper. -/
def principledId : Nat := 0

/-- The material output node made by PrincipledBSDFWrapper. -/
def matOutputId : Nat := 1

/-- CyclesMaterialData.input_tr, the dictionary translating internal map
names into cycles principled inputs, in source order. -/
def input_tr : List (String × String) :=
  [("baseColor", "Base Color"),
   ("normal", "Normal"),
   ("roughness", "Roughness"),
   ("metallic", "Metallic"),
   ("specular", "Specular"),
   ("opacity", "Alpha"),
   ("emission", "Emission"),
   ("height", "<custom>"),
   ("ambientOcclusion", "<custom>"),
   ("glossiness", "<custom>")]

/-- The mutable state of createMaterial: the fresh-identity counter, the trace
of host calls so far, and the local variables back_principled, normal_node and
displacement_node. -/
structure MatState where
  nextId : Nat
  events : List Ev
  backPrincipled : Option Nat
  normalNode : Option Nat
  displacementNode : Option Nat
deriving DecidableEq, Repr

/-- State at the top of the loop: the wrapper nodes exist, the locals are None. -/
def initState : MatState :=
  { nextId := 2, events := [], backPrincipled := none, normalNode := none,
    displacementNode := none }

/-- The current_principled / back_principled block at the top of the loop
body of createMaterial: on a map name ending in "_back" it creates the
backface principled, geometry and mix-shader nodes the first time and strips
the suffix; the result is (current_principled, map_name, state). -/
def backStage (st : MatState) (mapName : String) : Nat × String × MatState :=
  if pyEndsWith mapName "_back" then
    match st.backPrincipled with
    | some b => (b, pyDropLast5 mapName, st)
    | none =>
      let b := st.nextId
      let g := st.nextId + 1
      let m := st.nextId + 2
      (b, pyDropLast5 mapName,
        { st with
          nextId := st.nextId + 3
          backPrincipled := some b
          events := st.events ++
            [.newNode b .bsdfPrincipled, .newNode g .geometry, .newNode m .mixShader,
             .setDefaultValue b "Roughness" 1,
             .newLink g (.name "Backfacing") m (.idx 0),
             .newLink principledId (.idx 0) m (.idx 1),
             .newLink b (.idx 0) m (.idx 2),
             .newLink m (.idx 0) matOutputId (.idx 0)] })
  else (principledId, mapName, st)

/-- Creation of the texture node, image fetch and colorspace_settings
assignment; result is (texture_node, state). -/
def texStage (st : MatState) (imgPath mapName2 : String) : Nat × MatState :=
  let t := st.nextId
  (t, { st with
    nextId := st.nextId + 1
    events := st.events ++
      [.newNode t .texImage, .getImage imgPath,
       .setImageColorSpace t (if mapName2 == "baseColor" then "sRGB" else "Non-Color")] })

/-- The hasattr(texture_node, "color_space") / glossiness / height / normal /
fallback branch chain of the loop body.  The fallback looks map_name up in
input_tr; a missing key is a Python KeyError, an .error carrying the state at
the raise. -/
def branchStage (hasCS : Bool) (cur t : Nat) (mapName2 : String) (st : MatState) :
    Except MatState MatState :=
  if hasCS then
    .ok { st with events := st.events ++
      [.setOldColorSpace t (if mapName2 == "baseColor" then "COLOR" else "NONE")] }
  else if mapName2 == "glossiness" then
    let inv := st.nextId
    .ok { st with
      nextId := st.nextId + 1
      events := st.events ++
        [.newNode inv .invert,
         .newLink t (.name "Color") inv (.name "Color"),
         .newLink inv (.name "Color") cur (.name "Roughness")] }
  else if mapName2 == "height" then
    let d := st.nextId
    .ok { st with
      nextId := st.nextId + 1
      displacementNode := some d
      events := st.events ++
        [.newNode d .displacement,
         .newLink t (.name "Color") d (.name "Height"),
         .newLink d (.name "Displacement") matOutputId (.idx 2)] }
  else if mapName2 == "normal" then
    let n := st.nextId
    .ok { st with
      nextId := st.nextId + 1
      normalNode := some n
      events := st.events ++
        [.newNode n .normalMap,
         .newLink t (.name "Color") n (.name "Color"),
         .newLink n (.name "Normal") cur (.name "Normal")] }
  else
    match input_tr.lookup mapName2 with
    | none => .error st
    | some inputName =>
      .ok { st with events := st.events ++
        [.newLink t (.name "Color") cur (.name inputName)] }

/-- The normal-to-displacement relink at the bottom of the loop body, run
once both a displacement node and a normal node exist. -/
def relinkStage (st : MatState) : MatState :=
  match st.displacementNode, st.normalNode with
  | some d, some n =>
      { st with events := st.events ++
        [.newLink n (.name "Normal") d (.name "Normal")] }
  | _, _ => st

/-- The blend_method assignment for opacity followed by the relink at the
bottom of the loop body. -/
def tailStage (mapName2 : String) (st : MatState) : MatState :=
  relinkStage (if mapName2 == "opacity" then
      { st with events := st.events ++ [.setBlendMethod "BLEND"] }
    else st)

/-- One iteration of the loop in createMaterial over self.maps.items().
hasCS is hasattr(texture_node, "color_space").  A Python KeyError (looking up
a key absent from input_tr in the final links.new argument) is an .error
carrying the state at the raise, after the texture node was already created. -/
def processMap (hasCS : Bool) (st : MatState) (entry : String × Option String) :
    Except MatState MatState :=
  match entry with
  | (_, none) => .ok st
  | (mapName, some imgPath) =>
    if (input_tr.lookup (pySplitHead mapName)).isNone then .ok st else
    let bs := backStage st mapName
    let ts := texStage bs.2.2 imgPath bs.2.1
    match branchStage hasCS bs.1 ts.1 bs.2.1 ts.2 with
    | .error s => .error s
    | .ok s => .ok (tailStage bs.2.1 s)

/-- The loop of createMaterial; a raised exception aborts the remaining
iterations. -/
def runMaps (hasCS : Bool) (st : MatState) :
    List (String × Option String) → Except MatState MatState
  | [] => .ok st
  | e :: rest =>
    match processMap hasCS st e with
    | .ok st1 => runMaps hasCS st1 rest
    | .error st1 => .error st1

/-- Embedding of CyclesMaterialData.createMaterial: run the loop over the
maps, then call autoAlignNodes(mat_output) once. -/
def createMaterial (hasCS : Bool) (maps : List (String × Option String)) :
    Except MatState MatState :=
  match runMaps hasCS initState maps with
  | .ok st => .ok { st with events := st.events ++ [.align matOutputId] }
  | .error st => .error st

/-- The state carried by a run, whether it completed or raised. -/
def resSt : Except MatState MatState → MatState
  | .ok s => s
  | .error s => s

/-- Embedding of CyclesMaterialData.loadImages: the paths passed to
getCyclesImage, in loop order. -/
def loadImages : List (String × Option String) → List String
  | [] => []
  | (_, none) :: rest => loadImages rest
  | (n, some p) :: rest =>
    if (input_tr.lookup (pySplitHead n)).isNone then loadImages rest
    else p :: loadImages rest

/-- An entry of self.maps survives the guard at the top of both loops: its
image is not None and the part of its name before the first underscore is a
key of input_tr. -/
def recognizedEntry (e : String × Option String) : Bool :=
  e.2.isSome && (input_tr.lookup (pySplitHead e.1)).isSome

/-! ### Trace-extension lemmas for the material builder -/

/-- True on every event except an autoAlignNodes invocation. -/
def notAlign : Ev → Bool
  | .align _ => false
  | _ => true

/-- The trace new extends the trace old by appended events, none of which is
an align. -/
def EvExt (old new : List Ev) : Prop :=
  ∃ tail, new = old ++ tail ∧ tail.all notAlign = true

theorem EvExt.refl (l : List Ev) : EvExt l l :=
  ⟨[], by simp⟩

theorem EvExt.trans {a b c : List Ev} (h1 : EvExt a b) (h2 : EvExt b c) :
    EvExt a c := by
  obtain ⟨t1, rfl, h1a⟩ := h1
  obtain ⟨t2, rfl, h2a⟩ := h2
  exact ⟨t1 ++ t2, by simp, by simp_all⟩

theorem EvExt.mem {a b : List Ev} (h : EvExt a b) {e : Ev} (he : e ∈ a) :
    e ∈ b := by
  obtain ⟨t, rfl, _⟩ := h
  exact List.mem_append_left _ he

theorem EvExt.append (a t : List Ev) (h : t.all notAlign = true) :
    EvExt a (a ++ t) :=
  ⟨t, rfl, h⟩

theorem backStage_ext (st : MatState) (nm : String) :
    EvExt st.events (backStage st nm).2.2.events := by
  unfold backStage
  by_cases h : pyEndsWith nm "_back" = true
  · rw [if_pos h]
    rcases hb : st.backPrincipled with _ | b
    · exact EvExt.append _ _ rfl
    · exact EvExt.refl _
  · rw [if_neg h]
    exact EvExt.refl _

theorem texStage_ext (st : MatState) (p nm : String) :
    EvExt st.events (texStage st p nm).2.events :=
  EvExt.append _ _ rfl

theorem branchStage_ext (hasCS : Bool) (cur t : Nat) (nm : String) (st : MatState) :
    EvExt st.events (resSt (branchStage hasCS cur t nm st)).events := by
  unfold branchStage
  split
  · exact EvExt.append _ _ rfl
  · split
    · exact EvExt.append _ _ rfl
    · split
      · exact EvExt.append _ _ rfl
      · split
        · exact EvExt.append _ _ rfl
        · rcases h : input_tr.lookup nm with _ | iname
          · exact EvExt.refl _
          · exact EvExt.append _ _ rfl

theorem relinkStage_ext (st : MatState) :
    EvExt st.events (relinkStage st).events := by
  unfold relinkStage
  rcases hd : st.displacementNode with _ | d <;>
    rcases hn : st.normalNode with _ | n <;>
    simp only [hd, hn] <;>
    first
      | exact EvExt.refl _
      | exact EvExt.append _ _ rfl

theorem tailStage_ext (nm : String) (st : MatState) :
    EvExt st.events (tailStage nm st).events := by
  unfold tailStage
  by_cases h : (nm == "opacity") = true
  · rw [if_pos h]
    exact EvExt.trans (EvExt.append st.events [Ev.setBlendMethod "BLEND"] rfl)
      (relinkStage_ext _)
  · rw [if_neg h]
    exact relinkStage_ext _

theorem processMap_skipped (hasCS : Bool) (st : MatState) (nm p : String)
    (hl : (input_tr.lookup (pySplitHead nm)).isNone = true) :
    processMap hasCS st (nm, some p) = .ok st := by
  simp only [processMap]
  rw [if_pos hl]

theorem processMap_eq (hasCS : Bool) (st : MatState) (nm p : String)
    (hl : (input_tr.lookup (pySplitHead nm)).isNone = false) :
    processMap hasCS st (nm, some p) =
      match branchStage hasCS (backStage st nm).1
          (texStage (backStage st nm).2.2 p (backStage st nm).2.1).1
          (backStage st nm).2.1
          (texStage (backStage st nm).2.2 p (backStage st nm).2.1).2 with
      | .error s => .error s
      | .ok s => .ok (tailStage (backStage st nm).2.1 s) := by
  simp only [processMap]
  rw [if_neg (by simp [hl])]

theorem processMap_ext (hasCS : Bool) (st : MatState) (e : String × Option String) :
    EvExt st.events (resSt (processMap hasCS st e)).events := by
  rcases e with ⟨nm, _ | p⟩
  · exact EvExt.refl _
  · by_cases hl : (input_tr.lookup (pySplitHead nm)).isNone = true
    · rw [processMap_skipped hasCS st nm p hl]
      exact EvExt.refl _
    · rw [processMap_eq hasCS st nm p (by simpa using hl)]
      have h1 := backStage_ext st nm
      have h2 := texStage_ext (backStage st nm).2.2 p (backStage st nm).2.1
      have h3 := branchStage_ext hasCS (backStage st nm).1
        (texStage (backStage st nm).2.2 p (backStage st nm).2.1).1
        (backStage st nm).2.1
        (texStage (backStage st nm).2.2 p (backStage st nm).2.1).2
      rcases hb : branchStage hasCS (backStage st nm).1
          (texStage (backStage st nm).2.2 p (backStage st nm).2.1).1
          (backStage st nm).2.1
          (texStage (backStage st nm).2.2 p (backStage st nm).2.1).2 with s | s
      · rw [hb] at h3
        exact (h1.trans h2).trans h3
      · rw [hb] at h3
        have h4 := tailStage_ext (backStage st nm).2.1 s
        exact ((h1.trans h2).trans h3).trans h4

theorem runMaps_ext (hasCS : Bool) :
    ∀ (l : List (String × Option String)) (st : MatState),
      EvExt st.events (resSt (runMaps hasCS st l)).events
  | [], _ => EvExt.refl _
  | e :: rest, st => by
    unfold runMaps
    have h1 := processMap_ext hasCS st e
    rcases hp : processMap hasCS st e with s | s
    · rw [hp] at h1
      exact h1
    · rw [hp] at h1
      exact h1.trans (runMaps_ext hasCS rest s)

theorem runMaps_append (hasCS : Bool) :
    ∀ (l1 l2 : List (String × Option String)) (st : MatState),
      runMaps hasCS st (l1 ++ l2) =
        match runMaps hasCS st l1 with
        | .ok s => runMaps hasCS s l2
        | .error s => .error s
  | [], _, _ => rfl
  | e :: rest, l2, st => by
    simp only [List.cons_append, runMaps]
    rcases hp : processMap hasCS st e with s | s
    · rfl
    · exact runMaps_append hasCS rest l2 s

theorem processMap_unrecognized (hasCS : Bool) (st : MatState)
    (e : String × Option String) (h : recognizedEntry e = false) :
    processMap hasCS st e = .ok st := by
  rcases e with ⟨nm, _ | p⟩
  · rfl
  · apply processMap_skipped
    rcases hx : input_tr.lookup (pySplitHead nm) with _ | v
    · rfl
    · rw [recognizedEntry] at h
      rw [hx] at h
      simp at h

theorem runMaps_filter (hasCS : Bool) :
    ∀ (l : List (String × Option String)) (st : MatState),
      runMaps hasCS st l = runMaps hasCS st (l.filter recognizedEntry)
  | [], _ => rfl
  | e :: rest, st => by
    by_cases h : recognizedEntry e = true
    · rw [List.filter_cons, if_pos h]
      simp only [runMaps]
      rcases hp : processMap hasCS st e with s | s
      · rfl
      · exact runMaps_filter hasCS rest s
    · rw [List.filter_cons, if_neg h]
      simp only [runMaps]
      rw [processMap_unrecognized hasCS st e (by simpa using h)]
      exact runMaps_filter hasCS rest st

theorem loadImages_filter :
    ∀ l : List (String × Option String),
      loadImages l = loadImages (l.filter recognizedEntry)
  | [] => rfl
  | (nm, none) :: rest => by
    have h : recognizedEntry (nm, none) = false := rfl
    rw [List.filter_cons, if_neg (by simp [h])]
    simp only [loadImages]
    exact loadImages_filter rest
  | (nm, some p) :: rest => by
    rcases hx : input_tr.lookup (pySplitHead nm) with _ | v
    · have h : recognizedEntry (nm, some p) = false := by
        simp [recognizedEntry, hx]
      rw [List.filter_cons, if_neg (by simp [h])]
      simp only [loadImages]
      rw [hx]
      simp only [Option.isNone_none, if_pos]
      exact loadImages_filter rest
    · have h : recognizedEntry (nm, some p) = true := by
        simp [recognizedEntry, hx]
      rw [List.filter_cons, if_pos h]
      simp only [loadImages]
      rw [hx]
      simp only [Option.isNone_some, Bool.false_eq_true, if_false]
      rw [loadImages_filter rest]

/-- C9: both loadImages and createMaterial skip every map entry whose image
is None or whose name prefix before the first underscore is not a key of
input_tr: running either on the full maps dictionary is identical to running
it on the dictionary restricted to the recognized entries, so unrecognized
entries load no image, create no node, add no link and leave the whole
run unchanged. -/
theorem c9_frame_unrecognized (hasCS : Bool) (maps : List (String × Option String)) :
    createMaterial hasCS maps = createMaterial hasCS (maps.filter recognizedEntry) ∧
    loadImages maps = loadImages (maps.filter recognizedEntry) := by
  refine ⟨?_, loadImages_filter maps⟩
  unfold createMaterial
  rw [runMaps_filter]

/-- C7: in every completing execution of createMaterial, the align event is
emitted exactly once and nothing follows it: the final trace is the loop
trace, which contains no align at all, followed by the single align of
autoAlignNodes(mat_output). -/
theorem c7_align_once_last (hasCS : Bool) (maps : List (String × Option String))
    (st : MatState) (hok : createMaterial hasCS maps = .ok st) :
    ∃ evs, st.events = evs ++ [Ev.align matOutputId] ∧
      ∀ n : Nat, Ev.align n ∉ evs := by
  unfold createMaterial at hok
  rcases hr : runMaps hasCS initState maps with s | s
  · rw [hr] at hok
    simp at hok
  · rw [hr] at hok
    simp only [Except.ok.injEq] at hok
    subst hok
    refine ⟨s.events, rfl, ?_⟩
    intro n hn
    have hext := runMaps_ext hasCS maps initState
    rw [hr] at hext
    obtain ⟨tail, htail, hall⟩ := hext
    have hs : s.events = tail := by simpa [initState, resSt] using htail
    rw [hs] at hn
    have := List.all_eq_true.mp hall _ hn
    simp [notAlign] at this

/-- Witness for C7 at a concrete input: a one-map material ends its trace
with the single align event. -/
theorem c7_align_once_last_witness :
    ∃ evs, (resSt (createMaterial false [("baseColor", some "b.png")])).events =
      evs ++ [Ev.align matOutputId] ∧ ∀ n : Nat, Ev.align n ∉ evs :=
  c7_align_once_last false [("baseColor", some "b.png")]
    (resSt (createMaterial false [("baseColor", some "b.png")])) rfl

/-! ### C2: auxiliary nodes for glossiness, height and normal maps -/

theorem processMap_glossiness (st : MatState) (p : String) :
    processMap false st ("glossiness", some p) =
      .ok (tailStage "glossiness"
        { st with
          nextId := st.nextId + 2
          events := st.events ++
            [.newNode st.nextId .texImage, .getImage p,
             .setImageColorSpace st.nextId "Non-Color"] ++
            [.newNode (st.nextId + 1) .invert,
             .newLink st.nextId (.name "Color") (st.nextId + 1) (.name "Color"),
             .newLink (st.nextId + 1) (.name "Color") principledId (.name "Roughness")] }) :=
  rfl

theorem processMap_height (st : MatState) (p : String) :
    processMap false st ("height", some p) =
      .ok (tailStage "height"
        { st with
          nextId := st.nextId + 2
          displacementNode := some (st.nextId + 1)
          events := st.events ++
            [.newNode st.nextId .texImage, .getImage p,
             .setImageColorSpace st.nextId "Non-Color"] ++
            [.newNode (st.nextId + 1) .displacement,
             .newLink st.nextId (.name "Color") (st.nextId + 1) (.name "Height"),
             .newLink (st.nextId + 1) (.name "Displacement") matOutputId (.idx 2)] }) :=
  rfl

theorem processMap_normal (st : MatState) (p : String) :
    processMap false st ("normal", some p) =
      .ok (tailStage "normal"
        { st with
          nextId := st.nextId + 2
          normalNode := some (st.nextId + 1)
          events := st.events ++
            [.newNode st.nextId .texImage, .getImage p,
             .setImageColorSpace st.nextId "Non-Color"] ++
            [.newNode (st.nextId + 1) .normalMap,
             .newLink st.nextId (.name "Color") (st.nextId + 1) (.name "Color"),
             .newLink (st.nextId + 1) (.name "Normal") principledId (.name "Normal")] }) :=
  rfl

/-- C2: in every completing run of createMaterial (on a Blender where texture
nodes have no color_space attribute), each glossiness map is routed through a
newly created Invert node into the principled node's Roughness input, each
height map through a newly created Displacement node into the material
output's displacement socket (inputs[2]), and each normal map through a newly
created Normal Map node into the principled node's Normal input. -/
theorem c2_auxiliary_nodes (maps pre post : List (String × Option String))
    (role p : String) (st : MatState)
    (hmaps : maps = pre ++ (role, some p) :: post)
    (hok : createMaterial false maps = .ok st) :
    (role = "glossiness" → ∃ tex inv,
      Ev.newNode tex .texImage ∈ st.events ∧
      Ev.newNode inv .invert ∈ st.events ∧
      Ev.newLink tex (.name "Color") inv (.name "Color") ∈ st.events ∧
      Ev.newLink inv (.name "Color") principledId (.name "Roughness") ∈ st.events) ∧
    (role = "height" → ∃ tex disp,
      Ev.newNode tex .texImage ∈ st.events ∧
      Ev.newNode disp .displacement ∈ st.events ∧
      Ev.newLink tex (.name "Color") disp (.name "Height") ∈ st.events ∧
      Ev.newLink disp (.name "Displacement") matOutputId (.idx 2) ∈ st.events) ∧
    (role = "normal" → ∃ tex nrm,
      Ev.newNode tex .texImage ∈ st.events ∧
      Ev.newNode nrm .normalMap ∈ st.events ∧
      Ev.newLink tex (.name "Color") nrm (.name "Color") ∈ st.events ∧
      Ev.newLink nrm (.name "Normal") principledId (.name "Normal") ∈ st.events) := by
  subst hmaps
  unfold createMaterial at hok
  rcases hr : runMaps false initState (pre ++ (role, some p) :: post) with s | s
  · rw [hr] at hok
    simp at hok
  rw [hr] at hok
  simp only [Except.ok.injEq] at hok
  subst hok
  rw [runMaps_append false pre ((role, some p) :: post) initState] at hr
  rcases hpre : runMaps false initState pre with s1 | s1
  · rw [hpre] at hr
    simp at hr
  rw [hpre] at hr
  simp only [runMaps] at hr
  rcases hpm : processMap false s1 (role, some p) with s2 | s2
  · rw [hpm] at hr
    simp at hr
  rw [hpm] at hr
  have hr2 : runMaps false s2 post = Except.ok s := hr
  have hpost := runMaps_ext false post s2
  rw [hr2] at hpost
  have hmem : ∀ e : Ev, e ∈ s2.events → e ∈ s.events ++ [Ev.align matOutputId] :=
    fun e he => List.mem_append_left _ (hpost.mem he)
  refine ⟨?_, ?_, ?_⟩ <;> intro hrole <;> subst hrole
  · rw [processMap_glossiness s1 p] at hpm
    simp only [Except.ok.injEq] at hpm
    subst hpm
    refine ⟨s1.nextId, s1.nextId + 1, ?_, ?_, ?_, ?_⟩ <;>
      exact hmem _ ((tailStage_ext _ _).mem (by simp))
  · rw [processMap_height s1 p] at hpm
    simp only [Except.ok.injEq] at hpm
    subst hpm
    refine ⟨s1.nextId, s1.nextId + 1, ?_, ?_, ?_, ?_⟩ <;>
      exact hmem _ ((tailStage_ext _ _).mem (by simp))
  · rw [processMap_normal s1 p] at hpm
    simp only [Except.ok.injEq] at hpm
    subst hpm
    refine ⟨s1.nextId, s1.nextId + 1, ?_, ?_, ?_, ?_⟩ <;>
      exact hmem _ ((tailStage_ext _ _).mem (by simp))

/-- Witness for C2 at a concrete input: a glossiness map produces the invert
route into Roughness. -/
theorem c2_auxiliary_nodes_witness :
    ∃ tex inv,
      Ev.newNode tex .texImage ∈
        (resSt (createMaterial false [("glossiness", some "g.png")])).events ∧
      Ev.newNode inv .invert ∈
        (resSt (createMaterial false [("glossiness", some "g.png")])).events ∧
      Ev.newLink tex (.name "Color") inv (.name "Color") ∈
        (resSt (createMaterial false [("glossiness", some "g.png")])).events ∧
      Ev.newLink inv (.name "Color") principledId (.name "Roughness") ∈
        (resSt (createMaterial false [("glossiness", some "g.png")])).events :=
  (c2_auxiliary_nodes [("glossiness", some "g.png")] [] [] "glossiness" "g.png"
    (resSt (createMaterial false [("glossiness", some "g.png")])) rfl rfl).1 rfl

/-! ### C8: the fallback branch and the <custom> placeholder -/

/-- C8 evaluation: an ambientOcclusion map is not caught by any special
branch, so the fallback looks it up in input_tr, obtains the placeholder
<custom>, and asks for a link into a principled input named <custom>. -/
theorem c8_custom_placeholder_link :
    input_tr.lookup "ambientOcclusion" = some "<custom>" ∧
    Ev.newLink 2 (.name "Color") principledId (.name "<custom>") ∈
      (resSt (createMaterial false [("ambientOcclusion", some "ao.png")])).events := by
  decide

/-! ### C3: the double-sided (mix shader) setup -/

/-- The complete double-sided setup appears in the trace: a backface
principled b, a geometry node g and a mix shader m were created, Backfacing
drives the mix factor, the front principled feeds mix input 1, the backface
principled feeds mix input 2, and the mix output feeds the material output. -/
def backSetupIn (evs : List Ev) (b g m : Nat) : Prop :=
  Ev.newNode b .bsdfPrincipled ∈ evs ∧
  Ev.newNode g .geometry ∈ evs ∧
  Ev.newNode m .mixShader ∈ evs ∧
  Ev.newLink g (.name "Backfacing") m (.idx 0) ∈ evs ∧
  Ev.newLink principledId (.idx 0) m (.idx 1) ∈ evs ∧
  Ev.newLink b (.idx 0) m (.idx 2) ∈ evs ∧
  Ev.newLink m (.idx 0) matOutputId (.idx 0) ∈ evs

/-- The stripped map name is wired into the backface principled b: through an
invert node into Roughness for glossiness, through a normal-map node into
Normal for normal, and directly from the texture node into the translated
input for every other role. -/
def wiredIntoBack (evs : List Ev) (b : Nat) (stripped : String) : Prop :=
  if stripped = "glossiness" then
    ∃ tex inv, Ev.newNode inv .invert ∈ evs ∧
      Ev.newLink tex (.name "Color") inv (.name "Color") ∈ evs ∧
      Ev.newLink inv (.name "Color") b (.name "Roughness") ∈ evs
  else if stripped = "normal" then
    ∃ tex nrm, Ev.newNode nrm .normalMap ∈ evs ∧
      Ev.newLink tex (.name "Color") nrm (.name "Color") ∈ evs ∧
      Ev.newLink nrm (.name "Normal") b (.name "Normal") ∈ evs
  else
    ∃ tex iname, input_tr.lookup stripped = some iname ∧
      Ev.newNode tex .texImage ∈ evs ∧
      Ev.newLink tex (.name "Color") b (.name iname) ∈ evs

theorem backSetupIn_subset {evs evs' : List Ev}
    (h : ∀ e : Ev, e ∈ evs → e ∈ evs') {b g m : Nat}
    (hs : backSetupIn evs b g m) : backSetupIn evs' b g m := by
  obtain ⟨a1, a2, a3, a4, a5, a6, a7⟩ := hs
  exact ⟨h _ a1, h _ a2, h _ a3, h _ a4, h _ a5, h _ a6, h _ a7⟩

theorem wiredIntoBack_subset {evs evs' : List Ev}
    (h : ∀ e : Ev, e ∈ evs → e ∈ evs') {b : Nat} {stripped : String}
    (hw : wiredIntoBack evs b stripped) : wiredIntoBack evs' b stripped := by
  unfold wiredIntoBack at hw ⊢
  by_cases h1 : stripped = "glossiness"
  · rw [if_pos h1] at hw ⊢
    obtain ⟨tex, inv, a1, a2, a3⟩ := hw
    exact ⟨tex, inv, h _ a1, h _ a2, h _ a3⟩
  · rw [if_neg h1] at hw ⊢
    by_cases h2 : stripped = "normal"
    · rw [if_pos h2] at hw ⊢
      obtain ⟨tex, nrm, a1, a2, a3⟩ := hw
      exact ⟨tex, nrm, h _ a1, h _ a2, h _ a3⟩
    · rw [if_neg h2] at hw ⊢
      obtain ⟨tex, iname, a1, a2, a3⟩ := hw
      exact ⟨tex, iname, a1, h _ a2, h _ a3⟩

/-- Invariant: whenever the local back_principled is set, the whole
double-sided setup for it is already in the trace. -/
def backOk (st : MatState) : Prop :=
  ∀ b : Nat, st.backPrincipled = some b → ∃ g m, backSetupIn st.events b g m

theorem backOk_transfer {s s' : MatState} (h : backOk s)
    (he : EvExt s.events s'.events) (hb : s'.backPrincipled = s.backPrincipled) :
    backOk s' := by
  intro b hbp
  rw [hb] at hbp
  obtain ⟨g, m, hm⟩ := h b hbp
  exact ⟨g, m, backSetupIn_subset (fun _ hx => he.mem hx) hm⟩

theorem backStage_not_back (st : MatState) (nm : String)
    (h : pyEndsWith nm "_back" = false) :
    backStage st nm = (principledId, nm, st) := by
  unfold backStage
  rw [if_neg (by simp [h])]

theorem backStage_back_some (st : MatState) (nm : String) (b : Nat)
    (h : pyEndsWith nm "_back" = true) (hb : st.backPrincipled = some b) :
    backStage st nm = (b, pyDropLast5 nm, st) := by
  unfold backStage
  rw [if_pos h, hb]

theorem backStage_back_none (st : MatState) (nm : String)
    (h : pyEndsWith nm "_back" = true) (hb : st.backPrincipled = none) :
    backStage st nm = (st.nextId, pyDropLast5 nm,
      { st with
        nextId := st.nextId + 3
        backPrincipled := some st.nextId
        events := st.events ++
          [.newNode st.nextId .bsdfPrincipled, .newNode (st.nextId + 1) .geometry,
           .newNode (st.nextId + 2) .mixShader,
           .setDefaultValue st.nextId "Roughness" 1,
           .newLink (st.nextId + 1) (.name "Backfacing") (st.nextId + 2) (.idx 0),
           .newLink principledId (.idx 0) (st.nextId + 2) (.idx 1),
           .newLink st.nextId (.idx 0) (st.nextId + 2) (.idx 2),
           .newLink (st.nextId + 2) (.idx 0) matOutputId (.idx 0)] }) := by
  unfold backStage
  rw [if_pos h, hb]

theorem texStage_backPrincipled (st : MatState) (p nm2 : String) :
    (texStage st p nm2).2.backPrincipled = st.backPrincipled :=
  rfl

theorem branchStage_backPrincipled (hasCS : Bool) (cur t : Nat) (nm2 : String)
    (st : MatState) :
    (resSt (branchStage hasCS cur t nm2 st)).backPrincipled = st.backPrincipled := by
  unfold branchStage
  split
  · rfl
  · split
    · rfl
    · split
      · rfl
      · split
        · rfl
        · rcases h : input_tr.lookup nm2 with _ | iname
          · rfl
          · rfl

theorem relinkStage_backPrincipled (st : MatState) :
    (relinkStage st).backPrincipled = st.backPrincipled := by
  unfold relinkStage
  rcases hd : st.displacementNode with _ | d <;>
    rcases hn : st.normalNode with _ | n <;> rfl

theorem tailStage_backPrincipled (nm2 : String) (st : MatState) :
    (tailStage nm2 st).backPrincipled = st.backPrincipled := by
  unfold tailStage
  by_cases h : (nm2 == "opacity") = true
  · rw [if_pos h, relinkStage_backPrincipled]
  · rw [if_neg h, relinkStage_backPrincipled]

theorem backStage_backOk (st : MatState) (nm : String) (h : backOk st) :
    backOk (backStage st nm).2.2 := by
  by_cases hback : pyEndsWith nm "_back" = true
  · rcases hb : st.backPrincipled with _ | b
    · rw [backStage_back_none st nm hback hb]
      intro b' hb'
      have hsome : some st.nextId = some b' := hb'
      obtain rfl := Option.some.inj hsome
      exact ⟨st.nextId + 1, st.nextId + 2, by simp [backSetupIn]⟩
    · rw [backStage_back_some st nm b hback hb]
      exact h
  · rw [backStage_not_back st nm (by simpa using hback)]
    exact h

theorem processMap_backOk (hasCS : Bool) (st : MatState)
    (e : String × Option String) (h : backOk st) :
    backOk (resSt (processMap hasCS st e)) := by
  rcases e with ⟨nm, _ | p⟩
  · exact h
  · by_cases hl : (input_tr.lookup (pySplitHead nm)).isNone = true
    · rw [processMap_skipped hasCS st nm p hl]
      exact h
    · rw [processMap_eq hasCS st nm p (by simpa using hl)]
      have h1 : backOk (backStage st nm).2.2 := backStage_backOk st nm h
      have h2 : backOk (texStage (backStage st nm).2.2 p (backStage st nm).2.1).2 :=
        backOk_transfer h1 (texStage_ext _ _ _) rfl
      have hbp := branchStage_backPrincipled hasCS (backStage st nm).1
        (texStage (backStage st nm).2.2 p (backStage st nm).2.1).1
        (backStage st nm).2.1
        (texStage (backStage st nm).2.2 p (backStage st nm).2.1).2
      have hext := branchStage_ext hasCS (backStage st nm).1
        (texStage (backStage st nm).2.2 p (backStage st nm).2.1).1
        (backStage st nm).2.1
        (texStage (backStage st nm).2.2 p (backStage st nm).2.1).2
      rcases hbr : branchStage hasCS (backStage st nm).1
          (texStage (backStage st nm).2.2 p (backStage st nm).2.1).1
          (backStage st nm).2.1
          (texStage (backStage st nm).2.2 p (backStage st nm).2.1).2 with sE | s3
      · rw [hbr] at hbp hext
        exact backOk_transfer h2 hext hbp
      · rw [hbr] at hbp hext
        have h3 : backOk s3 := backOk_transfer h2 hext hbp
        exact backOk_transfer h3 (tailStage_ext _ _) (tailStage_backPrincipled _ _)

theorem runMaps_backOk (hasCS : Bool) :
    ∀ (l : List (String × Option String)) (st : MatState), backOk st →
      backOk (resSt (runMaps hasCS st l))
  | [], _, h => h
  | e :: rest, st, h => by
    simp only [runMaps]
    have h1 := processMap_backOk hasCS st e h
    rcases hp : processMap hasCS st e with s | s
    · rw [hp] at h1
      exact h1
    · rw [hp] at h1
      exact runMaps_backOk hasCS rest s h1

theorem branchStage_glossiness (cur t : Nat) (st : MatState) :
    branchStage false cur t "glossiness" st =
      .ok { st with
        nextId := st.nextId + 1
        events := st.events ++
          [.newNode st.nextId .invert,
           .newLink t (.name "Color") st.nextId (.name "Color"),
           .newLink st.nextId (.name "Color") cur (.name "Roughness")] } :=
  rfl

theorem branchStage_normal (cur t : Nat) (st : MatState) :
    branchStage false cur t "normal" st =
      .ok { st with
        nextId := st.nextId + 1
        normalNode := some st.nextId
        events := st.events ++
          [.newNode st.nextId .normalMap,
           .newLink t (.name "Color") st.nextId (.name "Color"),
           .newLink st.nextId (.name "Normal") cur (.name "Normal")] } :=
  rfl

theorem branchStage_other (cur t : Nat) (nm2 : String) (st : MatState)
    (h1 : (nm2 == "glossiness") = false) (h2 : (nm2 == "height") = false)
    (h3 : (nm2 == "normal") = false) :
    branchStage false cur t nm2 st =
      match input_tr.lookup nm2 with
      | none => .error st
      | some iname => .ok { st with events := st.events ++
          [.newLink t (.name "Color") cur (.name iname)] } := by
  unfold branchStage
  rw [if_neg (by simp), if_neg (by simp [h1]), if_neg (by simp [h2]),
    if_neg (by simp [h3])]

/-- The loop body after the back stage, applied to a state whose trace
already has the full double-sided setup for b, keeps the setup and wires the
stripped map (unless it is height) into b. -/
theorem processBody_wired (s1' : MatState) (b : Nat) (stripped p : String)
    (s2 : MatState) (g m : Nat)
    (hsetup : backSetupIn s1'.events b g m)
    (hpm : (match branchStage false b (texStage s1' p stripped).1 stripped
            (texStage s1' p stripped).2 with
          | .error s => .error s
          | .ok s => Except.ok (tailStage stripped s)) = Except.ok s2) :
    backSetupIn s2.events b g m ∧
      (stripped ≠ "height" → wiredIntoBack s2.events b stripped) := by
  have hsetup2 : backSetupIn (texStage s1' p stripped).2.events b g m :=
    backSetupIn_subset (fun _ hx => (texStage_ext s1' p stripped).mem hx) hsetup
  rcases hbr : branchStage false b (texStage s1' p stripped).1 stripped
      (texStage s1' p stripped).2 with sE | s3
  · rw [hbr] at hpm
    simp at hpm
  · rw [hbr] at hpm
    simp only [Except.ok.injEq] at hpm
    subst hpm
    have hext3 := branchStage_ext false b (texStage s1' p stripped).1 stripped
      (texStage s1' p stripped).2
    rw [hbr] at hext3
    have hsetup3 : backSetupIn s3.events b g m :=
      backSetupIn_subset (fun _ hx => hext3.mem hx) hsetup2
    have hexttail := tailStage_ext stripped s3
    constructor
    · exact backSetupIn_subset (fun _ hx => hexttail.mem hx) hsetup3
    · intro hne
      by_cases hg : stripped = "glossiness"
      · subst hg
        rw [branchStage_glossiness] at hbr
        simp only [Except.ok.injEq] at hbr
        subst hbr
        unfold wiredIntoBack
        rw [if_pos rfl]
        refine ⟨(texStage s1' p "glossiness").1, (texStage s1' p "glossiness").2.nextId,
          ?_, ?_, ?_⟩ <;> exact hexttail.mem (by simp)
      · by_cases hn : stripped = "normal"
        · subst hn
          rw [branchStage_normal] at hbr
          simp only [Except.ok.injEq] at hbr
          subst hbr
          unfold wiredIntoBack
          rw [if_neg (by decide), if_pos rfl]
          refine ⟨(texStage s1' p "normal").1, (texStage s1' p "normal").2.nextId,
            ?_, ?_, ?_⟩ <;> exact hexttail.mem (by simp)
        · rw [branchStage_other b (texStage s1' p stripped).1 stripped
            (texStage s1' p stripped).2
            (beq_eq_false_iff_ne.mpr hg) (beq_eq_false_iff_ne.mpr hne)
            (beq_eq_false_iff_ne.mpr hn)] at hbr
          rcases hlook : input_tr.lookup stripped with _ | iname
          · rw [hlook] at hbr
            simp at hbr
          · rw [hlook] at hbr
            simp only [Except.ok.injEq] at hbr
            subst hbr
            unfold wiredIntoBack
            rw [if_neg hg, if_neg hn]
            refine ⟨(texStage s1' p stripped).1, iname, hlook, ?_, ?_⟩ <;>
              exact hexttail.mem (by simp [texStage])

/-- C3 (amended): for every completing run whose maps contain a recognized
entry (image not None, prefix in input_tr) named with a "_back" suffix, the
double-sided setup is built: backface principled, geometry and mix-shader
nodes with Backfacing driving the mix factor, the front principled on mix
input 1, the backface principled on mix input 2 and the mix output feeding
the material output; and the entry is wired into the backface principled
node after stripping the suffix, except for height_back, which is routed
through a displacement node to the material output instead. -/
theorem c3_double_sided (maps pre post : List (String × Option String))
    (nm p : String) (st : MatState)
    (hmaps : maps = pre ++ (nm, some p) :: post)
    (hrec : (input_tr.lookup (pySplitHead nm)).isSome = true)
    (hback : pyEndsWith nm "_back" = true)
    (hok : createMaterial false maps = .ok st) :
    ∃ b g m, backSetupIn st.events b g m ∧
      (pyDropLast5 nm ≠ "height" → wiredIntoBack st.events b (pyDropLast5 nm)) := by
  subst hmaps
  unfold createMaterial at hok
  rcases hr : runMaps false initState (pre ++ (nm, some p) :: post) with s | s
  · rw [hr] at hok
    simp at hok
  rw [hr] at hok
  simp only [Except.ok.injEq] at hok
  subst hok
  rw [runMaps_append false pre ((nm, some p) :: post) initState] at hr
  rcases hpre : runMaps false initState pre with s1 | s1
  · rw [hpre] at hr
    simp at hr
  rw [hpre] at hr
  simp only [runMaps] at hr
  rcases hpm : processMap false s1 (nm, some p) with s2 | s2
  · rw [hpm] at hr
    simp at hr
  rw [hpm] at hr
  have hr2 : runMaps false s2 post = Except.ok s := hr
  have hpost := runMaps_ext false post s2
  rw [hr2] at hpost
  have hmem : ∀ e : Ev, e ∈ s2.events → e ∈ s.events ++ [Ev.align matOutputId] :=
    fun e he => List.mem_append_left _ (hpost.mem he)
  have hback1 : backOk s1 := by
    have h0 : backOk initState := by
      intro b hb
      simp [initState] at hb
    have hx := runMaps_backOk false pre initState h0
    rw [hpre] at hx
    exact hx
  have hl : (input_tr.lookup (pySplitHead nm)).isNone = false := by
    rcases hx : input_tr.lookup (pySplitHead nm) with _ | v
    · rw [hx] at hrec
      simp at hrec
    · rfl
  rw [processMap_eq false s1 nm p hl] at hpm
  rcases hbp : s1.backPrincipled with _ | b0
  · rw [backStage_back_none s1 nm hback hbp] at hpm
    have hsetup : backSetupIn
        (s1.events ++
          [.newNode s1.nextId .bsdfPrincipled, .newNode (s1.nextId + 1) .geometry,
           .newNode (s1.nextId + 2) .mixShader,
           .setDefaultValue s1.nextId "Roughness" 1,
           .newLink (s1.nextId + 1) (.name "Backfacing") (s1.nextId + 2) (.idx 0),
           .newLink principledId (.idx 0) (s1.nextId + 2) (.idx 1),
           .newLink s1.nextId (.idx 0) (s1.nextId + 2) (.idx 2),
           .newLink (s1.nextId + 2) (.idx 0) matOutputId (.idx 0)])
        s1.nextId (s1.nextId + 1) (s1.nextId + 2) := by
      simp [backSetupIn]
    obtain ⟨hA, hB⟩ := processBody_wired _ s1.nextId (pyDropLast5 nm) p s2
      (s1.nextId + 1) (s1.nextId + 2) hsetup hpm
    exact ⟨s1.nextId, s1.nextId + 1, s1.nextId + 2,
      backSetupIn_subset hmem hA, fun hne => wiredIntoBack_subset hmem (hB hne)⟩
  · rw [backStage_back_some s1 nm b0 hback hbp] at hpm
    obtain ⟨g, m, hsetup⟩ := hback1 b0 hbp
    obtain ⟨hA, hB⟩ := processBody_wired s1 b0 (pyDropLast5 nm) p s2 g m hsetup hpm
    exact ⟨b0, g, m, backSetupIn_subset hmem hA,
      fun hne => wiredIntoBack_subset hmem (hB hne)⟩

/-- Witness for the amended C3 at a concrete input: a baseColor_back map
builds the double-sided setup and is wired into the backface principled
node's Base Color input. -/
theorem c3_double_sided_witness :
    ∃ b g m, backSetupIn
        (resSt (createMaterial false [("baseColor_back", some "c.png")])).events b g m ∧
      (pyDropLast5 "baseColor_back" ≠ "height" →
        wiredIntoBack
          (resSt (createMaterial false [("baseColor_back", some "c.png")])).events b
          (pyDropLast5 "baseColor_back")) :=
  c3_double_sided [("baseColor_back", some "c.png")] [] [] "baseColor_back" "c.png"
    (resSt (createMaterial false [("baseColor_back", some "c.png")])) rfl (by decide)
    (by decide) rfl

/-- True exactly on link events whose target node is b. -/
def linksInto (b : Nat) : Ev → Bool
  | .newLink _ _ tn _ => tn == b
  | _ => false

/-- Counterexample to C3 as stated: a height_back map creates the complete
double-sided setup (backface principled is node 2), yet no link at all
targets the backface principled node, so the map is not wired into it; and
for a foo_back map (unrecognized prefix) no node is created at all, so no
double-sided setup arises although the name ends in _back. -/
theorem c3_counterexample :
    (∃ g m, backSetupIn
        (resSt (createMaterial false [("height_back", some "h.png")])).events 2 g m) ∧
    ((resSt (createMaterial false [("height_back", some "h.png")])).events.all
        (fun e => !(linksInto 2 e)) = true) ∧
    (resSt (createMaterial false [("foo_back", some "x.png")])).events =
      [Ev.align matOutputId] := by
  refine ⟨⟨3, 4, ?_⟩, ?_, ?_⟩
  · unfold backSetupIn
    decide
  · decide
  · decide

/-! ### Node-group asset loader (cycles_utils.AppendableNodeGroup) -/

/-- A node inside a node group: its name in the group.nodes collection and
its label attribute. -/
structure GroupNode where
  nodeName : String
  label : String
deriving DecidableEq, Repr

/-- A node group datablock: an identity plus its nodes. -/
structure NodeGroup where
  uid : Nat
  nodes : List GroupNode
deriving DecidableEq, Repr

/-- The state of bpy.data.node_groups, with a fresh-identity counter for
appended datablocks. -/
structure NodeGroupData where
  groups : List NodeGroup
  nextUid : Nat
deriving DecidableEq, Repr

/-- The per-group test of AppendableNodeGroup.__isAlreadyThere: the group
contains a node named "Group Input" (a by-name collection access returns the
first node with that name) whose label equals the class ID. -/
def groupMatches (idStr : String) (g : NodeGroup) : Bool :=
  match g.nodes.find? (fun n => n.nodeName == "Group Input") with
  | some n => n.label == idStr
  | none => false

/-- Embedding of AppendableNodeGroup.__isAlreadyThere: the first node group
already in bpy.data.node_groups whose Group Input node carries the ID. -/
def isAlreadyThere (idStr : String) (st : NodeGroupData) : Option NodeGroup :=
  st.groups.find? (groupMatches idStr)

/-- Modelled from the spec: the bundled companion asset file node-groups.blend
is not under the scraped sources, so appendFromBlend restricted to the use in
AppendableNodeGroup.get (datatype node_groups, a single name) is modelled as
appending a fresh copy of the asset group stored under NAME in the bundle to
bpy.data.node_groups and returning it. -/
def appendFromBlend (asset : NodeGroup) (st : NodeGroupData) :
    NodeGroup × NodeGroupData :=
  let fresh : NodeGroup := { uid := st.nextUid, nodes := asset.nodes }
  (fresh, { groups := st.groups ++ [fresh], nextUid := st.nextUid + 1 })

/-- Embedding of AppendableNodeGroup.get: the already-present group when the
ID is found (Python or on an Optional), otherwise the group appended from
node-groups.blend. -/
def getNodeGroup (idStr : String) (asset : NodeGroup) (st : NodeGroupData) :
    NodeGroup × NodeGroupData :=
  match isAlreadyThere idStr st with
  | some g => (g, st)
  | none => appendFromBlend asset st

/-- C5: AppendableNodeGroup.get deduplicates by the label on the group input
node.  If some group in bpy.data.node_groups already carries the ID, that
(first matching) group is returned and nothing is appended; only when none
matches is the asset appended.  Provided the bundled asset group carries the
ID on its Group Input node, as its docstring instructs, calling get twice in
a row returns the same group and the second call changes nothing. -/
theorem c5_node_group_dedup (idStr : String) (asset : NodeGroup)
    (st : NodeGroupData) (hAsset : groupMatches idStr asset = true) :
    ((∃ g ∈ st.groups, groupMatches idStr g = true) →
      (getNodeGroup idStr asset st).2 = st ∧
      (getNodeGroup idStr asset st).1 ∈ st.groups ∧
      groupMatches idStr (getNodeGroup idStr asset st).1 = true) ∧
    ((¬ ∃ g ∈ st.groups, groupMatches idStr g = true) →
      (getNodeGroup idStr asset st).2.groups =
        st.groups ++ [(getNodeGroup idStr asset st).1]) ∧
    (getNodeGroup idStr asset (getNodeGroup idStr asset st).2).1 =
      (getNodeGroup idStr asset st).1 ∧
    (getNodeGroup idStr asset (getNodeGroup idStr asset st).2).2 =
      (getNodeGroup idStr asset st).2 := by
  have hfresh : groupMatches idStr
      { uid := st.nextUid, nodes := asset.nodes } = true := hAsset
  rcases hfind : st.groups.find? (groupMatches idStr) with _ | g
  · have hnone := List.find?_eq_none.mp hfind
    refine ⟨?_, ?_, ?_, ?_⟩
    · rintro ⟨g, hg, hm⟩
      exact absurd hm (by simpa using hnone g hg)
    · intro _
      simp [getNodeGroup, isAlreadyThere, hfind, appendFromBlend]
    · simp only [getNodeGroup, isAlreadyThere, hfind, appendFromBlend]
      rw [List.find?_append, hfind]
      simp [hfresh]
    · simp only [getNodeGroup, isAlreadyThere, hfind, appendFromBlend]
      rw [List.find?_append, hfind]
      simp [hfresh]
  · have hmem : g ∈ st.groups := List.mem_of_find?_eq_some hfind
    have hpred : groupMatches idStr g = true := by
      simpa using List.find?_some hfind
    refine ⟨?_, ?_, ?_, ?_⟩
    · intro _
      exact ⟨by simp [getNodeGroup, isAlreadyThere, hfind],
        by simpa [getNodeGroup, isAlreadyThere, hfind] using hmem,
        by simpa [getNodeGroup, isAlreadyThere, hfind] using hpred⟩
    · intro hno
      exact absurd ⟨g, hmem, hpred⟩ hno
    · simp [getNodeGroup, isAlreadyThere, hfind]
    · simp [getNodeGroup, isAlreadyThere, hfind]

/-- Witness for C5 at a concrete input: appending into an empty collection
and calling again returns the appended group and changes nothing. -/
theorem c5_node_group_dedup_witness :
    (getNodeGroup "ID-34GH89"
        { uid := 0, nodes := [{ nodeName := "Group Input", label := "ID-34GH89" }] }
        (getNodeGroup "ID-34GH89"
          { uid := 0, nodes := [{ nodeName := "Group Input", label := "ID-34GH89" }] }
          { groups := [], nextUid := 1 }).2).1 =
      (getNodeGroup "ID-34GH89"
        { uid := 0, nodes := [{ nodeName := "Group Input", label := "ID-34GH89" }] }
        { groups := [], nextUid := 1 }).1 :=
  (c5_node_group_dedup "ID-34GH89"
    { uid := 0, nodes := [{ nodeName := "Group Input", label := "ID-34GH89" }] }
    { groups := [], nextUid := 1 } (by decide)).2.2.1

/-! ### addRandomizeTiles (cycles_utils.addRandomizeTiles) -/

/-- An output socket of a shader node: its is_linked flag and the links
leaving it (as opaque link identities). -/
structure OutSocket where
  is_linked : Bool
  links : List Nat
deriving DecidableEq, Repr

/-- A shader node: whether it is a ShaderNodeTexCoord, and its outputs. -/
structure ShaderNode where
  isTexCoord : Bool
  outputs : List OutSocket
deriving DecidableEq, Repr

/-- A material as addRandomizeTiles reads it: the use_nodes flag and the
nodes of its node tree. -/
structure Material where
  use_nodes : Bool
  nodes : List ShaderNode
deriving DecidableEq, Repr

/-- The texcoord_links comprehension: the links of every linked output
socket of every ShaderNodeTexCoord node. -/
def texcoordLinks (mat : Material) : List (List Nat) :=
  (((mat.nodes.filter (fun n => n.isTexCoord)).flatMap
    (fun n => n.outputs)).filter (fun s => s.is_linked)).map (fun s => s.links)

/-- Embedding of cycles_utils.addRandomizeTiles.  Returning none models
returning False; returning some models returning the do closure, whose
captured data is texcoord_links.  The material is returned unchanged: the
function only reads it, all node creation and relinking lives inside do. -/
def addRandomizeTiles (mat : Material) : Material × Option (List (List Nat)) :=
  if mat.use_nodes = false then (mat, none)
  else if (texcoordLinks mat).length = 0 then (mat, none)
  else (mat, some (texcoordLinks mat))

/-- C10: addRandomizeTiles returns False exactly when use_nodes is off or no
ShaderNodeTexCoord node has a linked output socket; in every case the
material is returned unmodified, so all mutation happens only inside the
returned closure. -/
theorem c10_randomize_tiles_guard (mat : Material) :
    (addRandomizeTiles mat).1 = mat ∧
    ((addRandomizeTiles mat).2 = none ↔
      (mat.use_nodes = false ∨
        ∀ n ∈ mat.nodes, n.isTexCoord = true →
          ∀ s ∈ n.outputs, s.is_linked = false)) := by
  have hiff : (texcoordLinks mat).length = 0 ↔
      (∀ n ∈ mat.nodes, n.isTexCoord = true →
        ∀ s ∈ n.outputs, s.is_linked = false) := by
    simp only [texcoordLinks, List.length_eq_zero, List.map_eq_nil_iff,
      List.filter_eq_nil_iff, List.mem_flatMap, List.mem_filter]
    constructor
    · intro hz n hn ht s hs
      simpa using hz s ⟨n, ⟨hn, ht⟩, hs⟩
    · rintro hb s ⟨n, ⟨hn, ht⟩, hs⟩
      simp [hb n hn ht s hs]
  by_cases hu : mat.use_nodes = false
  · simp [addRandomizeTiles, hu]
  · by_cases hz : (texcoordLinks mat).length = 0
    · refine ⟨by simp [addRandomizeTiles, hu, hz], ?_⟩
      simp only [addRandomizeTiles, if_neg hu, if_pos hz]
      constructor
      · intro _
        exact Or.inr (hiff.mp hz)
      · intro _
        trivial
    · refine ⟨by simp [addRandomizeTiles, hu, hz], ?_⟩
      simp only [addRandomizeTiles, if_neg hu, if_neg hz]
      constructor
      · intro h
        exact absurd h (by simp)
      · rintro (h | h)
        · exact absurd h hu
        · exact absurd (hiff.mpr h) hz

/-- Witness for C10 at concrete inputs: a material without nodes enabled is
rejected, and a material with a linked texture-coordinates output yields a
closure capturing that link bundle. -/
theorem c10_randomize_tiles_guard_witness :
    (addRandomizeTiles { use_nodes := false, nodes := [] }).2 = none :=
  (c10_randomize_tiles_guard { use_nodes := false, nodes := [] }).2.mpr (Or.inl rfl)

/-! ### Node layout heuristic (cycles_utils.autoAlignNodes)

The node graph is a list of nodes; each node has input sockets, each socket
the identities of the from-nodes of its links.  makeTree back-traces those
links; Python's unbounded recursion is modelled with a fuel parameter, kept
structurally recursive so that concrete runs evaluate.  Locations are exact
rationals (all the arithmetic of the source is dyadic). -/

/-- An input socket: the from_node identities of the links into it. -/
structure InSocket where
  links : List Nat
deriving DecidableEq, Repr

/-- A node of the shader graph. -/
structure GNode where
  nid : Nat
  inputs : List InSocket
deriving DecidableEq, Repr

/-- A node graph. -/
structure NodeGraph where
  nodes : List GNode
deriving DecidableEq, Repr

/-- Node lookup by identity. -/
def findNode (g : NodeGraph) (nid : Nat) : Option GNode :=
  g.nodes.find? (fun n => n.nid == nid)

/-- The tuple (node, children, descendentCount) built by makeTree. -/
inductive NTree where
  | mk (nid : Nat) (children : List NTree) (count : Nat)

/-- The node of a tree. -/
def NTree.nid : NTree → Nat
  | .mk n _ _ => n

/-- The children of a tree. -/
def NTree.children : NTree → List NTree
  | .mk _ c _ => c

/-- The descendentCount of a tree. -/
def NTree.count : NTree → Nat
  | .mk _ _ k => k

/-- The loop of makeTree over the from-nodes of the links into the inputs:
each is turned into a subtree by prev, the one-level-less approximation. -/
def mapOption (f : Nat → Option NTree) : List Nat → Option (List NTree)
  | [] => some []
  | a :: rest =>
    match f a with
    | none => none
    | some t =>
      match mapOption f rest with
      | none => none
      | some ts => some (t :: ts)

/-- One unfolding of makeTree: find the node, build the subtrees of the
from-nodes of the links into its inputs, and count descendants as the sum of
each subtree's count plus one. -/
def makeTreeStep (g : NodeGraph) (prev : Nat → Option NTree) (nid : Nat) :
    Option NTree :=
  match findNode g nid with
  | none => none
  | some node =>
    match mapOption prev (node.inputs.flatMap (fun i => i.links)) with
    | none => none
    | some children =>
      some (.mk nid children ((children.map (fun c => c.count + 1)).sum))

/-- Embedding of the inner makeTree of autoAlignNodes, with fuel bounding
the recursion depth of the Python original. -/
def makeTree (g : NodeGraph) : Nat → Nat → Option NTree
  | 0 => fun _ => none
  | fuel + 1 => makeTreeStep g (makeTree g fuel)

/-- The vertical slot total of a list of subtrees: the sum of count + 1. -/
def slotSum (l : List NTree) : ℚ :=
  (l.map (fun c => (c.count : ℚ) + 1)).sum

mutual

/-- Embedding of the inner placeNodes of autoAlignNodes: emits the location
assignments in program order.  The root goes to rootLocation; childLoc is one
xstep to the left and ystep * count / 2 above; the children are laid out by
the acc loop starting at 0.25.  The recursive call uses the default steps
(400, 170), as in the source. -/
def placeNodes (t : NTree) (rootLocation : ℚ × ℚ) (xstep ystep : ℚ) :
    List (Nat × ℚ × ℚ) :=
  match t with
  | .mk nid children count =>
    (nid, rootLocation) ::
      placeChildren children
        (rootLocation.1 - xstep, rootLocation.2 + ystep * (count : ℚ) / 2)
        ystep (1/4)

/-- The for loop of placeNodes: acc grows by half a slot before and half a
slot after each child. -/
def placeChildren (children : List NTree) (childLoc : ℚ × ℚ) (ystep acc : ℚ) :
    List (Nat × ℚ × ℚ) :=
  match children with
  | [] => []
  | c :: rest =>
    placeNodes c
      (childLoc.1, childLoc.2 - ystep * (acc + ((c.count : ℚ) + 1) / 2)) 400 170 ++
    placeChildren rest childLoc ystep
      (acc + ((c.count : ℚ) + 1) / 2 + ((c.count : ℚ) + 1) / 2)

end

/-- Embedding of cycles_utils.autoAlignNodes: build the tree from the root
and place it at the origin. -/
def autoAlignNodes (g : NodeGraph) (fuel root : Nat) :
    Option (List (Nat × ℚ × ℚ)) :=
  (makeTree g fuel root).map (fun t => placeNodes t (0, 0) 400 170)

theorem mapOption_rel (f : Nat → Option NTree) :
    ∀ (l : List Nat) (ts : List NTree), mapOption f l = some ts →
      List.Forall₂ (fun a b => f a = some b) l ts
  | [], ts, h => by
    simp only [mapOption, Option.some.injEq] at h
    subst h
    exact .nil
  | a :: rest, ts, h => by
    simp only [mapOption] at h
    rcases ha : f a with _ | t
    · rw [ha] at h
      simp at h
    rw [ha] at h
    rcases hrest : mapOption f rest with _ | ts0
    · rw [hrest] at h
      simp at h
    rw [hrest] at h
    simp only [Option.some.injEq] at h
    subst h
    exact .cons ha (mapOption_rel f rest ts0 hrest)

theorem makeTree_nid (g : NodeGraph) :
    ∀ (fuel nid : Nat) (t : NTree), makeTree g fuel nid = some t → t.nid = nid := by
  intro fuel nid t hm
  cases fuel with
  | zero => simp [makeTree] at hm
  | succ f =>
    have hm1 : makeTreeStep g (makeTree g f) nid = some t := hm
    rw [makeTreeStep] at hm1
    split at hm1
    · simp at hm1
    · split at hm1
      · simp at hm1
      · simp only [Option.some.injEq] at hm1
        subst hm1
        rfl

theorem forall2_children_nids (g : NodeGraph) (f : Nat)
    {l : List Nat} {ts : List NTree}
    (h : List.Forall₂ (fun a b => makeTree g f a = some b) l ts) :
    ts.map NTree.nid = l := by
  induction h with
  | nil => rfl
  | cons h1 _ ih => simp [makeTree_nid g f _ _ h1, ih]

theorem placeChildren_decompose (ystep : ℚ) :
    ∀ (children : List NTree) (i : Nat) (h : i < children.length)
      (childLoc : ℚ × ℚ) (acc : ℚ),
      ∃ pre suf, placeChildren children childLoc ystep acc =
        pre ++ placeNodes (children.get ⟨i, h⟩)
          (childLoc.1, childLoc.2 - ystep *
            (acc + slotSum (children.take i) +
              (((children.get ⟨i, h⟩).count : ℚ) + 1) / 2)) 400 170 ++ suf
  | [], i, h, _, _ => absurd h (by simp)
  | c :: rest, 0, h, childLoc, acc => by
    refine ⟨[], placeChildren rest childLoc ystep
      (acc + ((c.count : ℚ) + 1) / 2 + ((c.count : ℚ) + 1) / 2), ?_⟩
    rw [placeChildren]
    have harith : acc + slotSum ((c :: rest).take 0) + (((c.count : ℚ)) + 1) / 2 =
        acc + ((c.count : ℚ) + 1) / 2 := by
      simp [slotSum]
    simp only [List.get]
    rw [harith]
    simp
  | c :: rest, i + 1, h, childLoc, acc => by
    obtain ⟨pre, suf, heq⟩ := placeChildren_decompose ystep rest i
      (by simpa using Nat.lt_of_succ_lt_succ h) childLoc
      (acc + ((c.count : ℚ) + 1) / 2 + ((c.count : ℚ) + 1) / 2)
    refine ⟨placeNodes c
      (childLoc.1, childLoc.2 - ystep * (acc + ((c.count : ℚ) + 1) / 2)) 400 170 ++ pre,
      suf, ?_⟩
    rw [placeChildren, heq]
    have harith : acc + ((c.count : ℚ) + 1) / 2 + ((c.count : ℚ) + 1) / 2 +
        slotSum (rest.take i) + (((rest.get ⟨i, by simpa using Nat.lt_of_succ_lt_succ h⟩).count : ℚ) + 1) / 2 =
        acc + slotSum ((c :: rest).take (i + 1)) +
          (((c :: rest).get ⟨i + 1, h⟩).count + 1) / 2 := by
      simp only [List.take_succ_cons, List.get_cons_succ, slotSum, List.map_cons,
        List.sum_cons]
      ring
    rw [harith]
    simp [List.append_assoc]

/-- C4: makeTree builds the back-tracing tree: the root is the given node,
the children are the from-nodes of the links into its inputs (in input and
link order), and the descendant count is the sum over children of child count
plus one.  placeNodes places the root at the given location and each child
one xstep (400) to the left, at a vertical offset below
rootLocation.y + ystep * count / 2 given by ystep times the accumulated half
slots: 1/4, plus a full slot (count + 1) for every earlier sibling, plus half
this child's slot.  autoAlignNodes composes the two from the origin. -/
theorem c4_layout (g : NodeGraph) (fuel nid : Nat) (t : NTree)
    (hm : makeTree g fuel nid = some t) :
    t.nid = nid ∧
    (∃ node, findNode g nid = some node ∧
      t.children.map NTree.nid = node.inputs.flatMap (fun i => i.links)) ∧
    t.count = (t.children.map (fun c => c.count + 1)).sum ∧
    autoAlignNodes g fuel nid = some (placeNodes t (0, 0) 400 170) ∧
    (∀ loc : ℚ × ℚ, ∃ rest, placeNodes t loc 400 170 = (t.nid, loc) :: rest) ∧
    (∀ (loc : ℚ × ℚ) (i : Nat) (h : i < t.children.length),
      ∃ pre suf, placeNodes t loc 400 170 =
        pre ++ placeNodes (t.children.get ⟨i, h⟩)
          (loc.1 - 400, loc.2 + 170 * (t.count : ℚ) / 2 - 170 *
            (1/4 + slotSum (t.children.take i) +
              (((t.children.get ⟨i, h⟩).count : ℚ) + 1) / 2)) 400 170 ++ suf) := by
  cases fuel with
  | zero => simp [makeTree] at hm
  | succ f =>
    have hm0 : makeTreeStep g (makeTree g f) nid = some t := hm
    rw [makeTreeStep] at hm0
    split at hm0
    next hfn => simp at hm0
    next node hfn =>
      split at hm0
      next hmo => simp at hm0
      next children hmo =>
        simp only [Option.some.injEq] at hm0
        subst hm0
        refine ⟨rfl, ⟨node, hfn, forall2_children_nids g f
            (mapOption_rel (makeTree g f) _ children hmo)⟩, rfl, ?_, ?_, ?_⟩
        · simp [autoAlignNodes, hm]
        · intro loc
          refine ⟨placeChildren children (loc.1 - 400, loc.2 + 170 *
            ((((children.map (fun c => c.count + 1)).sum : ℕ)) : ℚ) / 2) 170 (1/4), ?_⟩
          rw [placeNodes]
          rfl
        · intro loc i h
          obtain ⟨pre, suf, heq⟩ := placeChildren_decompose 170 children i h
            (loc.1 - 400, loc.2 + 170 *
              ((((children.map (fun c => c.count + 1)).sum : ℕ)) : ℚ) / 2) (1/4)
          refine ⟨(nid, loc) :: pre, suf, ?_⟩
          rw [placeNodes, heq]
          simp [List.append_assoc, NTree.count, NTree.children]

/-- Witness for C4 at a concrete input: node 1 gets inputs from 2 and 3, and
the theorem applies to the tree built with fuel 5. -/
theorem c4_layout_witness :
    (NTree.mk 1 [NTree.mk 2 [] 0, NTree.mk 3 [] 0] 2).nid = 1 ∧
    (∃ node, findNode
        { nodes := [{ nid := 1, inputs := [{ links := [2, 3] }] },
                    { nid := 2, inputs := [] }, { nid := 3, inputs := [] }] } 1 =
          some node ∧
      (NTree.mk 1 [NTree.mk 2 [] 0, NTree.mk 3 [] 0] 2).children.map NTree.nid =
        node.inputs.flatMap (fun i => i.links)) ∧
    (NTree.mk 1 [NTree.mk 2 [] 0, NTree.mk 3 [] 0] 2).count =
      ((NTree.mk 1 [NTree.mk 2 [] 0, NTree.mk 3 [] 0] 2).children.map
        (fun c => c.count + 1)).sum ∧
    autoAlignNodes
        { nodes := [{ nid := 1, inputs := [{ links := [2, 3] }] },
                    { nid := 2, inputs := [] }, { nid := 3, inputs := [] }] } 5 1 =
      some (placeNodes (NTree.mk 1 [NTree.mk 2 [] 0, NTree.mk 3 [] 0] 2)
        (0, 0) 400 170) ∧
    (∀ loc : ℚ × ℚ, ∃ rest,
      placeNodes (NTree.mk 1 [NTree.mk 2 [] 0, NTree.mk 3 [] 0] 2) loc 400 170 =
        ((NTree.mk 1 [NTree.mk 2 [] 0, NTree.mk 3 [] 0] 2).nid, loc) :: rest) ∧
    (∀ (loc : ℚ × ℚ) (i : Nat)
      (h : i < (NTree.mk 1 [NTree.mk 2 [] 0, NTree.mk 3 [] 0] 2).children.length),
      ∃ pre suf,
        placeNodes (NTree.mk 1 [NTree.mk 2 [] 0, NTree.mk 3 [] 0] 2) loc 400 170 =
          pre ++ placeNodes
            ((NTree.mk 1 [NTree.mk 2 [] 0, NTree.mk 3 [] 0] 2).children.get ⟨i, h⟩)
            (loc.1 - 400,
             loc.2 + 170 * ((NTree.mk 1 [NTree.mk 2 [] 0, NTree.mk 3 [] 0] 2).count : ℚ) / 2 -
               170 * (1/4 +
                 slotSum ((NTree.mk 1 [NTree.mk 2 [] 0, NTree.mk 3 [] 0] 2).children.take i) +
                 ((((NTree.mk 1 [NTree.mk 2 [] 0, NTree.mk 3 [] 0] 2).children.get
                     ⟨i, h⟩).count : ℚ) + 1) / 2)) 400 170 ++ suf) :=
  c4_layout
    { nodes := [{ nid := 1, inputs := [{ links := [2, 3] }] },
                { nid := 2, inputs := [] }, { nid := 3, inputs := [] }] } 5 1
    (NTree.mk 1 [NTree.mk 2 [] 0, NTree.mk 3 [] 0] 2) rfl

end LilyScrap
